import Mathlib

/-!
Verification development for the SHL assessment recommender
(`backend/recommender.py`, `backend/app.py`).

The engine is embedded shallowly:

* queries are `List Char`; `str.lower`, `\d`, `\s` are modelled over ASCII
  (Python additionally accepts some non-ASCII digits and spaces, which does
  not change the relative behaviour of the components studied here);
* the ten duration regexes of `AssessmentRecommender.extract_requirements`
  are embedded as terms of a small regex AST together with a backtracking
  matcher whose exploration order (leftmost starting position, greedy
  quantifiers, left-biased alternation) follows Python's `re.search`;
* similarity scores coming out of the (external, opaque) embedding model are
  modelled as rationals, and the additive `0.1` entry-level boost as `1/10`;
* `DataFrame.sort_values('similarity', ascending=False)` is modelled as a
  stable descending sort.  (For arrays below numpy's introsort threshold the
  real sort is stable too; for larger arrays the tie order of the default
  `kind='quicksort'` is implementation-defined.  None of the theorems below
  other than the explicitly tie-related claim depend on the tie order.)
-/

/-- ASCII model of Python's `\s` class (also used by `str.strip`):
space, tab, newline, carriage return, vertical tab, form feed. -/
def pyIsSpace (c : Char) : Bool :=
  c == ' ' || c == '\t' || c == '\n' || c == '\r' || c == '\x0b' || c == '\x0c'

/-- ASCII model of Python's `\d` class. -/
def pyIsDigit (c : Char) : Bool :=
  '0' ≤ c && c ≤ '9'

/-- Numeric value of a decimal digit character. -/
def digitVal (c : Char) : Nat :=
  c.toNat - '0'.toNat

/-- ASCII model of `str.lower`, applied character by character. -/
def pyLower (c : Char) : Char :=
  if 'A' ≤ c && c ≤ 'Z' then Char.ofNat (c.toNat + 32) else c

/-- Substring test (`kw in s` on Python strings): `needle` occurs
contiguously somewhere in `hay`. -/
def listIsInfix (needle : List Char) : List Char → Bool
  | [] => needle.isEmpty
  | c :: rest => needle.isPrefixOf (c :: rest) || listIsInfix needle rest

/-- Regex fragment grammar covering the ten duration patterns of
`extract_requirements`: single character classes, literal strings, ordered
alternation, sequencing, starred/plus character classes, greedy option, and
the capturing group `(\d+)` whose value the caller reads as `group(1)`. -/
inductive RE : Type where
  | cls (p : Char → Bool) : RE
  | lit (s : List Char) : RE
  | alt (a b : RE) : RE
  | seq (a b : RE) : RE
  | starCls (p : Char → Bool) : RE
  | plusCls (p : Char → Bool) : RE
  | opt (a : RE) : RE
  | grpDigits : RE

/-- Greedy Kleene star over a character class, in continuation-passing
style: consume as many `p`-characters as possible first, backtracking to
shorter runs (Python's greedy `*`). -/
def starRun (p : Char → Bool) : List Char → Option Nat →
    (List Char → Option Nat → Option Nat) → Option Nat
  | [], cap, k => k [] cap
  | c :: rest, cap, k =>
    if p c then (starRun p rest cap k).orElse (fun _ => k (c :: rest) cap)
    else k (c :: rest) cap

/-- Greedy continuation of the capturing group `(\d+)` after its first
digit: extend the captured number while digits remain, backtracking to
shorter (still non-empty) digit runs. -/
def grpRun : List Char → Nat → (List Char → Option Nat → Option Nat) → Option Nat
  | [], v, k => k [] (some v)
  | c :: rest, v, k =>
    if pyIsDigit c then
      (grpRun rest (v * 10 + digitVal c) k).orElse (fun _ => k (c :: rest) (some v))
    else k (c :: rest) (some v)

/-- Backtracking matcher in continuation-passing style.  `mre r cs cap k`
attempts to match `r` against a prefix of `cs`, threading the current
`group(1)` capture `cap`, and calls `k` on the remaining input for every
parse, in Python's depth-first exploration order; the first parse whose
continuation succeeds wins. -/
def mre : RE → List Char → Option Nat →
    (List Char → Option Nat → Option Nat) → Option Nat
  | .cls p, cs, cap, k =>
    match cs with
    | [] => none
    | c :: rest => if p c then k rest cap else none
  | .lit s, cs, cap, k =>
    if s.isPrefixOf cs then k (cs.drop s.length) cap else none
  | .alt a b, cs, cap, k =>
    (mre a cs cap k).orElse (fun _ => mre b cs cap k)
  | .seq a b, cs, cap, k =>
    mre a cs cap (fun cs2 cap2 => mre b cs2 cap2 k)
  | .starCls p, cs, cap, k => starRun p cs cap k
  | .plusCls p, cs, cap, k =>
    match cs with
    | [] => none
    | c :: rest => if p c then starRun p rest cap k else none
  | .grpDigits, cs, cap, k =>
    match cs with
    | [] => none
    | c :: rest => if pyIsDigit c then grpRun rest (digitVal c) k else none
  | .opt a, cs, cap, k =>
    (mre a cs cap k).orElse (fun _ => k cs cap)

/-- Top-level continuation of a search: accept, reporting the capture
(every duration pattern contains a mandatory `(\d+)`, so the capture is
always set on success). -/
def reAccept : List Char → Option Nat → Option Nat :=
  fun _ cap => some (cap.getD 0)

/-- Model of `re.search(pattern, text)` followed by `int(match.group(1))`:
try to match at each starting position from the left, returning the value
of `group(1)` at the first position (and first parse) that succeeds, or
`none` when the pattern occurs nowhere. -/
def reSearch (r : RE) : List Char → Option Nat
  | [] => mre r [] none reAccept
  | c :: rest => (mre r (c :: rest) none reAccept).orElse (fun _ => reSearch r rest)

/-- The fragment `\s*`. -/
def wsStar : RE := .starCls pyIsSpace

/-- The fragment `\s+`. -/
def wsPlus : RE := .plusCls pyIsSpace

/-- The fragment `(min|minute)s?` (ordered alternation, greedy `s?`). -/
def minWord : RE :=
  .seq (.alt (.lit "min".toList) (.lit "minute".toList)) (.opt (.cls (· == 's')))

/-- The fragment `(hour|hr)s?`. -/
def hourWord : RE :=
  .seq (.alt (.lit "hour".toList) (.lit "hr".toList)) (.opt (.cls (· == 's')))

/-- The fragment `(\d+)\s*(min|minute)s?`, shared by patterns 3, 5 and 7. -/
def coreMin : RE := .seq .grpDigits (.seq wsStar minWord)

/-- The fragment `(\d+)\s*(hour|hr)s?`, shared by patterns 4, 6 and 8. -/
def coreHour : RE := .seq .grpDigits (.seq wsStar hourWord)

/-- Pattern 1: `(\d+)\s*[-]?\s*(\d+)?\s*(min|minute)s?`. -/
def pat1 : RE :=
  .seq .grpDigits (.seq wsStar (.seq (.opt (.cls (· == '-')))
    (.seq wsStar (.seq (.opt (.plusCls pyIsDigit)) (.seq wsStar minWord)))))

/-- Pattern 2: `(\d+)\s*[-]?\s*(\d+)?\s*(hour|hr)s?`. -/
def pat2 : RE :=
  .seq .grpDigits (.seq wsStar (.seq (.opt (.cls (· == '-')))
    (.seq wsStar (.seq (.opt (.plusCls pyIsDigit)) (.seq wsStar hourWord)))))

/-- Pattern 3: `under\s+(\d+)\s*(min|minute)s?`. -/
def pat3 : RE := .seq (.lit "under".toList) (.seq wsPlus coreMin)

/-- Pattern 4: `under\s+(\d+)\s*(hour|hr)s?`. -/
def pat4 : RE := .seq (.lit "under".toList) (.seq wsPlus coreHour)

/-- Pattern 5: `maximum\s+(\d+)\s*(min|minute)s?`. -/
def pat5 : RE := .seq (.lit "maximum".toList) (.seq wsPlus coreMin)

/-- Pattern 6: `maximum\s+(\d+)\s*(hour|hr)s?`. -/
def pat6 : RE := .seq (.lit "maximum".toList) (.seq wsPlus coreHour)

/-- Pattern 7: `max\s+(\d+)\s*(min|minute)s?`. -/
def pat7 : RE := .seq (.lit "max".toList) (.seq wsPlus coreMin)

/-- Pattern 8: `max\s+(\d+)\s*(hour|hr)s?`. -/
def pat8 : RE := .seq (.lit "max".toList) (.seq wsPlus coreHour)

/-- Pattern 9: `(\d+)\s*min`. -/
def pat9 : RE := .seq .grpDigits (.seq wsStar (.lit "min".toList))

/-- Pattern 10: `(\d+)\s*hour`. -/
def pat10 : RE := .seq .grpDigits (.seq wsStar (.lit "hour".toList))

/-- The ordered `duration_patterns` table of `extract_requirements`, with
each pattern's unit multiplier. -/
def duration_patterns : List (RE × Nat) :=
  [(pat1, 1), (pat2, 60), (pat3, 1), (pat4, 60), (pat5, 1),
   (pat6, 60), (pat7, 1), (pat8, 60), (pat9, 1), (pat10, 60)]

/-- The pattern loop of `extract_requirements`: try each `(pattern,
multiplier)` pair in order and `break` at the first match, returning
`int(match.group(1)) * multiplier`. -/
def firstPatternMatch : List (RE × Nat) → List Char → Option Nat
  | [], _ => none
  | (p, m) :: rest, cs =>
    match reSearch p cs with
    | some n => some (n * m)
    | none => firstPatternMatch rest cs

/-- Restricted extractor for the refinement claim: the same first-match
pattern loop limited to the first two table entries. -/
def extractDurationFirstTwo (query : List Char) : Option Nat :=
  firstPatternMatch [(pat1, 1), (pat2, 60)] (query.map pyLower)

/-- Consumption relation of the regex fragments: `Matches r cs rest` holds
when `r` can match some prefix of `cs`, leaving exactly `rest`.  The
backtracking matcher `mre` succeeds precisely on the inputs admitted by
this relation (soundness and completeness below). -/
inductive Matches : RE → List Char → List Char → Prop where
  | cls {p : Char → Bool} {c : Char} {rest : List Char} :
      p c = true → Matches (.cls p) (c :: rest) rest
  | lit {s rest : List Char} : Matches (.lit s) (s ++ rest) rest
  | altL {a b : RE} {cs rest : List Char} :
      Matches a cs rest → Matches (.alt a b) cs rest
  | altR {a b : RE} {cs rest : List Char} :
      Matches b cs rest → Matches (.alt a b) cs rest
  | seq {a b : RE} {cs mid rest : List Char} :
      Matches a cs mid → Matches b mid rest → Matches (.seq a b) cs rest
  | starNil {p : Char → Bool} {cs : List Char} : Matches (.starCls p) cs cs
  | starCons {p : Char → Bool} {c : Char} {cs rest : List Char} :
      p c = true → Matches (.starCls p) cs rest →
        Matches (.starCls p) (c :: cs) rest
  | plus {p : Char → Bool} {c : Char} {cs rest : List Char} :
      p c = true → Matches (.starCls p) cs rest →
        Matches (.plusCls p) (c :: cs) rest
  | optSome {a : RE} {cs rest : List Char} :
      Matches a cs rest → Matches (.opt a) cs rest
  | optNone {a : RE} {cs : List Char} : Matches (.opt a) cs cs
  | grp {c : Char} {cs rest : List Char} :
      pyIsDigit c = true → Matches (.starCls pyIsDigit) cs rest →
        Matches .grpDigits (c :: cs) rest

/-- The `tech_keywords` vocabulary of `extract_requirements`. -/
def tech_keywords : List (List Char) :=
  ["java".toList, "python".toList, "sql".toList, "javascript".toList,
   "js".toList, "programming".toList, "coding".toList, "technical".toList,
   "excel".toList, "development".toList, "engineer".toList,
   "developer".toList, "software".toList, "data analyst".toList,
   "analyst".toList, "sales".toList]

/-- The `soft_keywords` vocabulary of `extract_requirements`. -/
def soft_keywords : List (List Char) :=
  ["communication".toList, "personality".toList, "leadership".toList,
   "behavior".toList, "cultural".toList, "collaborate".toList,
   "interpersonal".toList, "emotional".toList, "team".toList,
   "social".toList, "motivat".toList, "cultural fit".toList]

/-- The `cognitive_keywords` vocabulary of `extract_requirements`. -/
def cognitive_keywords : List (List Char) :=
  ["cognitive".toList, "aptitude".toList, "reasoning".toList,
   "numerical".toList, "verbal".toList, "analytical".toList,
   "problem solving".toList, "logic".toList]

/-- The `entry_keywords` vocabulary of `extract_requirements`. -/
def entry_keywords : List (List Char) :=
  ["new graduate".toList, "graduate".toList, "entry".toList,
   "fresher".toList, "junior".toList]

/-- Python's `any(kw in query_lower for kw in keywords)`. -/
def anyKeyword (kws : List (List Char)) (ql : List Char) : Bool :=
  kws.any (fun kw => listIsInfix kw ql)

/-- The requirement record returned by
`AssessmentRecommender.extract_requirements`. -/
structure QueryRequirements where
  max_duration : Option Nat
  needs_tech : Bool
  needs_soft : Bool
  needs_cognitive : Bool
  needs_balanced : Bool
  is_entry_level : Bool
deriving DecidableEq, Repr

/-- `AssessmentRecommender.extract_requirements`: lower-case the query,
run the ten duration patterns first-match-wins, test the four keyword
vocabularies by substring membership, and derive `needs_balanced`. -/
def extract_requirements (query : List Char) : QueryRequirements :=
  let ql := query.map pyLower
  let md := firstPatternMatch duration_patterns ql
  let has_tech := anyKeyword tech_keywords ql
  let has_soft := anyKeyword soft_keywords ql
  let has_cognitive := anyKeyword cognitive_keywords ql
  let has_entry := anyKeyword entry_keywords ql
  { max_duration := md
    needs_tech := has_tech
    needs_soft := has_soft
    needs_cognitive := has_cognitive
    needs_balanced := (has_tech && has_soft) || (has_tech && has_cognitive)
    is_entry_level := has_entry }

/-- A corpus row of `assessments_enriched_db.csv` (the immutable
`AssessmentRecord` of the data model). -/
structure Assessment where
  name : String
  url : String
  test_type : String
  duration_mins : Nat
  skills : String
  description : String
  adaptive_support : String
  remote_support : String
deriving DecidableEq, Repr

/-- A corpus row paired with its (possibly boosted) similarity score, the
`results` dataframe row inside `AssessmentRecommender.recommend`. -/
structure Scored where
  a : Assessment
  sim : ℚ
deriving DecidableEq, Repr

/-- Url accessor used for deduplication and uniqueness statements. -/
def scoredUrl (x : Scored) : String := x.a.url

/-- `results = self.assessments_df.copy(); results['similarity'] =
similarities`: pair each corpus row with its similarity (rows beyond the
shorter of the two lists are dropped; in the program both always have the
corpus length). -/
def mkScored (corpus : List Assessment) (sims : List ℚ) : List Scored :=
  (corpus.zip sims).map (fun p => { a := p.1, sim := p.2 })

/-- The duration-filter step of `recommend`.  Python's
`if reqs['max_duration']:` is falsy both for `None` and for `0`, so a
detected constraint of `0` minutes skips the filter entirely.  Otherwise
keep rows with `duration_mins ≤ max_duration`; if fewer than 5 remain,
relax once to `duration_mins ≤ max_duration + 10`. -/
def applyDurationFilter (md : Option Nat) (l : List Scored) : List Scored :=
  match md with
  | none => l
  | some d =>
    if d = 0 then l
    else
      let filtered := l.filter (fun x => x.a.duration_mins ≤ d)
      if 5 ≤ filtered.length then filtered
      else l.filter (fun x => x.a.duration_mins ≤ d + 10)

/-- `results['name'].str.lower().str.contains('entry|graduate|junior')`:
the lower-cased name contains one of the three substrings. -/
def entryBoostMatch (name : String) : Bool :=
  let nl := name.toList.map pyLower
  listIsInfix "entry".toList nl || listIsInfix "graduate".toList nl ||
    listIsInfix "junior".toList nl

/-- The entry-level boost step of `recommend`: when `is_entry_level`, add
`0.1` to the similarity of every row whose name matches
`entry|graduate|junior`. -/
def applyEntryBoost (isEntry : Bool) (l : List Scored) : List Scored :=
  if isEntry then
    l.map (fun x => if entryBoostMatch x.a.name then { x with sim := x.sim + 1/10 } else x)
  else l

/-- Insert into a descending-sorted list, after any element of equal
similarity (stability). -/
def insertDesc (x : Scored) : List Scored → List Scored
  | [] => [x]
  | y :: rest => if y.sim ≤ x.sim then x :: y :: rest else y :: insertDesc x rest

/-- Model of `results.sort_values('similarity', ascending=False)`: stable
descending insertion sort (see the header note on tie order). -/
def sortBySimDesc : List Scored → List Scored
  | [] => []
  | x :: rest => insertDesc x (sortBySimDesc rest)

/-- Worker for `drop_duplicates(subset=['url'])`: keep the first
occurrence of each url, tracking the urls already seen. -/
def dedupGo : List String → List Scored → List Scored
  | _, [] => []
  | seen, x :: rest =>
    if x.a.url ∈ seen then dedupGo seen rest
    else x :: dedupGo (x.a.url :: seen) rest

/-- `balanced.drop_duplicates(subset=['url'])` (keep='first'). -/
def dedupByUrl (l : List Scored) : List Scored := dedupGo [] l

/-- The quota slices of the balanced branch: top 5 rows of `test_type` `K`,
top 5 of `P`, and — when `needs_cognitive` — top 3 of `A`, concatenated in
that order (`pd.concat([k, p, a])`). -/
def balancedUnion (needsCognitive : Bool) (sorted : List Scored) : List Scored :=
  let kS := (sorted.filter (fun x => x.a.test_type == "K")).take 5
  let pS := (sorted.filter (fun x => x.a.test_type == "P")).take 5
  if needsCognitive then
    kS ++ pS ++ (sorted.filter (fun x => x.a.test_type == "A")).take 3
  else kS ++ pS

/-- The balance step of `recommend`: on `needs_balanced`, form the quota
union, deduplicate by url and re-sort descending by similarity; otherwise
pass the sorted list through unchanged. -/
def balanceResults (needsBalanced needsCognitive : Bool) (sorted : List Scored) :
    List Scored :=
  if needsBalanced then sortBySimDesc (dedupByUrl (balancedUnion needsCognitive sorted))
  else sorted

/-- `final_count = max(5, min(10, len(results)))`, then
`results.head(final_count)`. -/
def clampResults (l : List Scored) : List Scored :=
  l.take (max 5 (min 10 l.length))

/-- The candidate list of `recommend` just before the final size clamp:
duration filter, entry boost, descending sort, balance step. -/
def candidateList (corpus : List Assessment) (sims : List ℚ) (query : List Char) :
    List Scored :=
  let reqs := extract_requirements query
  balanceResults reqs.needs_balanced reqs.needs_cognitive
    (sortBySimDesc (applyEntryBoost reqs.is_entry_level
      (applyDurationFilter reqs.max_duration (mkScored corpus sims))))

/-- `AssessmentRecommender.recommend`, given the corpus and the similarity
scores the opaque embedding model produced for the query. -/
def recommend (corpus : List Assessment) (sims : List ℚ) (query : List Char) :
    List Scored :=
  clampResults (candidateList corpus sims query)

/-- Python's banker's rounding `round(x, 4)` on exact rationals: round to
four decimal places, ties to the even multiple.  With `x = q * 10000` in
lowest terms `n/d`, `f = ⌊x⌋` and `r = n - f*d` the numerator of the
fractional part, the comparison of `r/d` against `1/2` is the comparison
of `2r` against `d`. -/
def pyRound4 (q : ℚ) : ℚ :=
  let x := q * 10000
  let f : ℤ := x.num.fdiv (x.den : ℤ)
  let r : ℤ := x.num - f * (x.den : ℤ)
  (if 2 * r < (x.den : ℤ) then (f : ℚ)
   else if (x.den : ℤ) < 2 * r then ((f + 1 : ℤ) : ℚ)
   else if f % 2 = 0 then (f : ℚ) else ((f + 1 : ℤ) : ℚ)) / 10000

/-- The pydantic `AssessmentResponse` model of `app.py`. -/
structure AssessmentResponse where
  name : String
  url : String
  test_type : String
  duration_mins : Nat
  skills : String
  description : String
  relevance_score : ℚ
deriving DecidableEq, Repr

/-- The pydantic `RecommendationResponse` model of `app.py`. -/
structure RecommendationResponse where
  query : String
  count : Nat
  recommendations : List AssessmentResponse
deriving DecidableEq, Repr

/-- The JSON object keys FastAPI serializes for a `RecommendationResponse`
(the pydantic field names, in declaration order). -/
def recommendationResponseKeys : List String :=
  ["query", "count", "recommendations"]

/-- The JSON object keys FastAPI serializes for each `AssessmentResponse`
record (the pydantic field names, in declaration order). -/
def assessmentResponseKeys : List String :=
  ["name", "url", "test_type", "duration_mins", "skills", "description",
   "relevance_score"]

/-- The per-record formatting of `get_recommendations`: copy the row's
fields verbatim (the raw single-letter `test_type` code included) and round
the similarity to four decimals. -/
def toAssessmentResponse (x : Scored) : AssessmentResponse :=
  { name := x.a.name
    url := x.a.url
    test_type := x.a.test_type
    duration_mins := x.a.duration_mins
    skills := x.a.skills
    description := x.a.description
    relevance_score := pyRound4 x.sim }

/-- Outcome of one `POST /recommend` request: an HTTP error response with a
status code and detail string, or a success body. -/
inductive HandlerOutcome where
  | errorResp (status : Nat) (detail : String) : HandlerOutcome
  | success (body : RecommendationResponse) : HandlerOutcome
deriving DecidableEq, Repr

/-- The `/recommend` handler `get_recommendations` of `app.py`.  The second
component records whether `recommender.recommend` was invoked.

`if not request.query or not request.query.strip():` holds exactly when the
query consists only of whitespace (the empty string included).  The
`HTTPException(status_code=400, detail="Query cannot be empty")` raised
there is itself an `Exception`, so the handler's blanket
`except Exception as e: raise HTTPException(status_code=500, detail=f"Error:
\x7bstr(e)\x7d")` intercepts it, and the client observes a 500 whose detail
embeds the stringified 400. -/
def get_recommendations (corpus : List Assessment) (sims : List ℚ)
    (query : String) : HandlerOutcome × Bool :=
  if query.toList.all pyIsSpace then
    (.errorResp 500 "Error: 400: Query cannot be empty", false)
  else
    let recs := recommend corpus sims query.toList
    (.success
      { query := query
        count := (recs.map toAssessmentResponse).length
        recommendations := recs.map toAssessmentResponse }, true)

/-- The category labels named by the specified `/recommend` response shape
(`K`, `P`, `A`, `B` and the fallback). -/
def specCategoryLabels : List String :=
  ["Knowledge & Skills", "Personality & Behaviour", "Ability & Aptitude",
   "Biodata & SJT", "Other"]

/-- Projection of a handler outcome onto the parts of a success body the
shape claims inspect — the echoed query, the count, and each record's
`test_type` code and url — discarding the rounded scores. -/
def outcomeShape : HandlerOutcome × Bool → Option (String × Nat × List (String × String))
  | (.success b, _) =>
    some (b.query, b.count, b.recommendations.map (fun r => (r.test_type, r.url)))
  | _ => none

/-- Example corpus of five records, all of `test_type` `B` and distinct
urls (durations well under any bound). -/
def corpusAllB : List Assessment :=
  [{ name := "Sales One", url := "u1", test_type := "B", duration_mins := 30,
     skills := "Sales", description := "d1", adaptive_support := "No",
     remote_support := "No" },
   { name := "Sales Two", url := "u2", test_type := "B", duration_mins := 30,
     skills := "Sales", description := "d2", adaptive_support := "No",
     remote_support := "No" },
   { name := "Sales Three", url := "u3", test_type := "B", duration_mins := 30,
     skills := "Sales", description := "d3", adaptive_support := "No",
     remote_support := "No" },
   { name := "Sales Four", url := "u4", test_type := "B", duration_mins := 30,
     skills := "Sales", description := "d4", adaptive_support := "No",
     remote_support := "No" },
   { name := "Sales Five", url := "u5", test_type := "B", duration_mins := 30,
     skills := "Sales", description := "d5", adaptive_support := "No",
     remote_support := "No" }]

/-- Five similarity scores for `corpusAllB`. -/
def simsFive : List ℚ := [5, 4, 3, 2, 1]

/-- A balanced-intent query: `java` is a technical keyword and
`communication` a soft keyword, so `needs_balanced` holds. -/
def qJavaComm : List Char := "java communication".toList

/-- Example corpus mixing the three balanced categories and a `B` record
that outscores all of them. -/
def corpusMixed : List Assessment :=
  [{ name := "Sales Screen", url := "b1", test_type := "B", duration_mins := 20,
     skills := "Sales", description := "db", adaptive_support := "No",
     remote_support := "No" },
   { name := "Java Test", url := "k1", test_type := "K", duration_mins := 35,
     skills := "Java", description := "dk", adaptive_support := "No",
     remote_support := "Yes" },
   { name := "Teamwork Profile", url := "p1", test_type := "P", duration_mins := 25,
     skills := "Communication", description := "dp", adaptive_support := "Yes",
     remote_support := "Yes" }]

/-- Similarity scores for `corpusMixed`: the `B` record scores highest. -/
def simsMixed : List ℚ := [9, 5, 4]

/-- Example corpus of one record with a 60-minute duration. -/
def corpusOne60 : List Assessment :=
  [{ name := "Long Test", url := "w1", test_type := "K", duration_mins := 60,
     skills := "SQL", description := "dl", adaptive_support := "No",
     remote_support := "No" }]

theorem insertDesc_perm (x : Scored) (l : List Scored) :
    (insertDesc x l).Perm (x :: l) := by
  induction l with
  | nil => simp [insertDesc]
  | cons y rest ih =>
    by_cases h : y.sim ≤ x.sim
    · simp [insertDesc, h]
    · simp only [insertDesc, if_neg h]
      exact (ih.cons y).trans (List.Perm.swap x y rest)

theorem sortBySimDesc_perm (l : List Scored) :
    (sortBySimDesc l).Perm l := by
  induction l with
  | nil => simp [sortBySimDesc]
  | cons x rest ih =>
    exact (insertDesc_perm x (sortBySimDesc rest)).trans (ih.cons x)

theorem mem_sortBySimDesc {x : Scored} {l : List Scored} :
    x ∈ sortBySimDesc l ↔ x ∈ l :=
  (sortBySimDesc_perm l).mem_iff

theorem dedupGo_subset (seen : List String) (l : List Scored) :
    ∀ x ∈ dedupGo seen l, x ∈ l := by
  induction l generalizing seen with
  | nil => intro x hx; simp [dedupGo] at hx
  | cons y rest ih =>
    intro x hx
    simp only [dedupGo] at hx
    split at hx
    · exact List.mem_cons_of_mem y (ih seen x hx)
    · rcases List.mem_cons.mp hx with hx | hx
      · exact hx ▸ List.mem_cons_self y rest
      · exact List.mem_cons_of_mem y (ih _ x hx)

theorem dedupGo_nodup (l : List Scored) : ∀ seen : List String,
    ((dedupGo seen l).map scoredUrl).Nodup ∧
      ∀ u ∈ (dedupGo seen l).map scoredUrl, u ∉ seen := by
  induction l with
  | nil => intro seen; simp [dedupGo]
  | cons y rest ih =>
    intro seen
    simp only [dedupGo]
    split
    · exact ⟨(ih seen).1, (ih seen).2⟩
    · rename_i hnot
      obtain ⟨hnd, hfresh⟩ := ih (y.a.url :: seen)
      refine ⟨List.nodup_cons.mpr ⟨fun hmem => ?_, hnd⟩, ?_⟩
      · exact (hfresh _ hmem) (List.mem_cons_self _ _)
      · intro u hu
        rcases List.mem_cons.mp hu with hu | hu
        · exact hu ▸ hnot
        · exact fun hs => (hfresh u hu) (List.mem_cons_of_mem _ hs)

theorem dedupByUrl_nodup (l : List Scored) :
    ((dedupByUrl l).map scoredUrl).Nodup :=
  (dedupGo_nodup l []).1

theorem dedupByUrl_subset (l : List Scored) :
    ∀ x ∈ dedupByUrl l, x ∈ l :=
  dedupGo_subset [] l

theorem dedupGo_eq_self (l : List Scored) : ∀ seen : List String,
    (∀ x ∈ l, x.a.url ∉ seen) → (l.map scoredUrl).Nodup →
      dedupGo seen l = l := by
  induction l with
  | nil => intro seen _ _; simp [dedupGo]
  | cons y rest ih =>
    intro seen hfresh hnd
    simp only [dedupGo, if_neg (hfresh y (List.mem_cons_self y rest))]
    congr 1
    refine ih (y.a.url :: seen) (fun x hx => ?_) (List.nodup_cons.mp hnd).2
    intro hmem
    rcases List.mem_cons.mp hmem with hmem | hmem
    · refine (List.nodup_cons.mp hnd).1 ?_
      show y.a.url ∈ List.map scoredUrl rest
      rw [← hmem]
      exact List.mem_map_of_mem scoredUrl hx
    · exact hfresh x (List.mem_cons_of_mem y hx) hmem

theorem dedupByUrl_eq_self {l : List Scored} (hnd : (l.map scoredUrl).Nodup) :
    dedupByUrl l = l :=
  dedupGo_eq_self l [] (fun x _ h => (List.not_mem_nil _ h)) hnd

theorem mem_applyDurationFilter {md : Option Nat} {l : List Scored} {x : Scored}
    (hx : x ∈ applyDurationFilter md l) : x ∈ l := by
  cases md with
  | none => exact hx
  | some d =>
    simp only [applyDurationFilter] at hx
    split at hx
    · exact hx
    · split at hx
      · exact List.mem_of_mem_filter hx
      · exact List.mem_of_mem_filter hx

theorem applyDurationFilter_duration {d : Nat} {l : List Scored} {x : Scored}
    (hd : d ≠ 0) (hx : x ∈ applyDurationFilter (some d) l) :
    x.a.duration_mins ≤ d + 10 := by
  simp only [applyDurationFilter, if_neg hd] at hx
  split at hx
  · have h := (List.mem_filter.mp hx).2
    exact le_trans (by simpa using h) (Nat.le_add_right d 10)
  · have h := (List.mem_filter.mp hx).2
    simpa using h

theorem applyDurationFilter_strict {d : Nat} {l : List Scored}
    (hd : d ≠ 0) (h5 : 5 ≤ (l.filter (fun x => x.a.duration_mins ≤ d)).length) :
    applyDurationFilter (some d) l = l.filter (fun x => x.a.duration_mins ≤ d) := by
  simp only [applyDurationFilter, if_neg hd, if_pos h5]

theorem mem_applyEntryBoost {b : Bool} {l : List Scored} {x : Scored}
    (hx : x ∈ applyEntryBoost b l) : ∃ y ∈ l, x.a = y.a := by
  cases b with
  | false => exact ⟨x, hx, rfl⟩
  | true =>
    simp only [applyEntryBoost, if_pos, List.mem_map] at hx
    obtain ⟨y, hy, hxy⟩ := hx
    refine ⟨y, hy, ?_⟩
    subst hxy
    split <;> rfl

theorem applyEntryBoost_mem_of_mem {b : Bool} {l : List Scored} {y : Scored}
    (hy : y ∈ l) : ∃ x ∈ applyEntryBoost b l, x.a = y.a := by
  cases b with
  | false => exact ⟨y, hy, rfl⟩
  | true =>
    simp only [applyEntryBoost, if_pos, List.mem_map]
    by_cases hb : entryBoostMatch y.a.name
    · exact ⟨{ y with sim := y.sim + 1/10 }, ⟨y, hy, by simp [hb]⟩, rfl⟩
    · exact ⟨y, ⟨y, hy, by simp [hb]⟩, rfl⟩

theorem applyEntryBoost_map_url (b : Bool) (l : List Scored) :
    (applyEntryBoost b l).map scoredUrl = l.map scoredUrl := by
  cases b with
  | false => rfl
  | true =>
    simp only [applyEntryBoost, if_pos, List.map_map]
    refine List.map_congr_left (fun x _ => ?_)
    simp only [Function.comp_apply, scoredUrl]
    split <;> rfl

theorem mem_typeSlice {l : List Scored} {t : String} {n : Nat} {x : Scored}
    (hx : x ∈ (l.filter (fun y => y.a.test_type == t)).take n) :
    x ∈ l ∧ x.a.test_type = t := by
  have hm := List.take_subset n _ hx
  exact ⟨List.mem_of_mem_filter hm, by simpa using (List.mem_filter.mp hm).2⟩

theorem mem_balancedUnion {cog : Bool} {l : List Scored} {x : Scored}
    (hx : x ∈ balancedUnion cog l) :
    x ∈ l ∧ (x.a.test_type = "K" ∨ x.a.test_type = "P" ∨ x.a.test_type = "A") := by
  cases cog with
  | false =>
    have hx2 : x ∈ (l.filter (fun y => y.a.test_type == "K")).take 5 ∨
        x ∈ (l.filter (fun y => y.a.test_type == "P")).take 5 := by
      simpa [balancedUnion] using hx
    rcases hx2 with h | h
    · exact ⟨(mem_typeSlice h).1, Or.inl (mem_typeSlice h).2⟩
    · exact ⟨(mem_typeSlice h).1, Or.inr (Or.inl (mem_typeSlice h).2)⟩
  | true =>
    have hx2 : (x ∈ (l.filter (fun y => y.a.test_type == "K")).take 5 ∨
        x ∈ (l.filter (fun y => y.a.test_type == "P")).take 5) ∨
        x ∈ (l.filter (fun y => y.a.test_type == "A")).take 3 := by
      simpa [balancedUnion, List.mem_append, or_assoc] using hx
    rcases hx2 with (h | h) | h
    · exact ⟨(mem_typeSlice h).1, Or.inl (mem_typeSlice h).2⟩
    · exact ⟨(mem_typeSlice h).1, Or.inr (Or.inl (mem_typeSlice h).2)⟩
    · exact ⟨(mem_typeSlice h).1, Or.inr (Or.inr (mem_typeSlice h).2)⟩

theorem mem_balanceResults {b cog : Bool} {l : List Scored} {x : Scored}
    (hx : x ∈ balanceResults b cog l) : x ∈ l := by
  cases b with
  | false => exact hx
  | true =>
    simp only [balanceResults, if_pos] at hx
    exact (mem_balancedUnion (dedupByUrl_subset _ _ (mem_sortBySimDesc.mp hx))).1

theorem mem_clampResults {l : List Scored} {x : Scored}
    (hx : x ∈ clampResults l) : x ∈ l :=
  List.take_subset _ _ hx

theorem length_clampResults (l : List Scored) :
    (clampResults l).length = min (max 5 (min 10 l.length)) l.length := by
  simp [clampResults]

theorem mem_mkScored {corpus : List Assessment} {sims : List ℚ} {x : Scored}
    (hx : x ∈ mkScored corpus sims) : x.a ∈ corpus := by
  simp only [mkScored, List.mem_map] at hx
  obtain ⟨p, hp, hxp⟩ := hx
  exact hxp ▸ (List.of_mem_zip hp).1

theorem mem_recommend_duration_stage {corpus : List Assessment} {sims : List ℚ}
    {query : List Char} {x : Scored} (hx : x ∈ recommend corpus sims query) :
    ∃ y ∈ applyDurationFilter (extract_requirements query).max_duration
        (mkScored corpus sims), x.a = y.a := by
  have h1 := mem_clampResults hx
  have h2 := mem_balanceResults (l :=
    sortBySimDesc (applyEntryBoost (extract_requirements query).is_entry_level
      (applyDurationFilter (extract_requirements query).max_duration
        (mkScored corpus sims)))) h1
  exact mem_applyEntryBoost (mem_sortBySimDesc.mp h2)

theorem mem_recommend_corpus {corpus : List Assessment} {sims : List ℚ}
    {query : List Char} {x : Scored} (hx : x ∈ recommend corpus sims query) :
    x.a ∈ corpus := by
  obtain ⟨y, hy, hxy⟩ := mem_recommend_duration_stage hx
  exact hxy ▸ mem_mkScored (mem_applyDurationFilter hy)

/-- C1, counterexample.  On the balanced-intent query `java communication`
(no duration constraint, so all five corpus records satisfy it) against a
corpus of five `B`-type records, the balanced branch intersects with an
empty `K` slice and an empty `P` slice, and the service returns zero
recommendations — not a length in `[5,10]`, and not the count (five) of
constraint-satisfying records either. -/
theorem c1_counterexample :
    (extract_requirements qJavaComm).needs_balanced = true ∧
    (extract_requirements qJavaComm).max_duration = none ∧
    corpusAllB.length = 5 ∧
    (recommend corpusAllB simsFive qJavaComm).length = 0 := by
  refine ⟨by decide, by decide, by decide, by decide⟩

/-- C1, amended: for every non-empty query the returned length lies in
`[5,10]`, except when the candidate list left after duration filtering and
(for balanced-intent queries) category balancing has fewer than 5 entries,
in which case the length equals exactly that candidate count. -/
theorem c1_result_length (corpus : List Assessment) (sims : List ℚ)
    (query : List Char) (hq : query ≠ []) :
    (5 ≤ (candidateList corpus sims query).length →
      5 ≤ (recommend corpus sims query).length ∧
        (recommend corpus sims query).length ≤ 10) ∧
    ((candidateList corpus sims query).length < 5 →
      (recommend corpus sims query).length =
        (candidateList corpus sims query).length) := by
  have hlen : (recommend corpus sims query).length =
      min (max 5 (min 10 (candidateList corpus sims query).length))
        (candidateList corpus sims query).length :=
    length_clampResults (candidateList corpus sims query)
  exact ⟨fun _ => by omega, fun _ => by omega⟩

/-- Witness for `c1_result_length` at the mixed corpus and the balanced
query. -/
theorem c1_result_length_witness :
    qJavaComm ≠ [] ∧
    ((5 ≤ (candidateList corpusMixed simsMixed qJavaComm).length →
      5 ≤ (recommend corpusMixed simsMixed qJavaComm).length ∧
        (recommend corpusMixed simsMixed qJavaComm).length ≤ 10) ∧
    ((candidateList corpusMixed simsMixed qJavaComm).length < 5 →
      (recommend corpusMixed simsMixed qJavaComm).length =
        (candidateList corpusMixed simsMixed qJavaComm).length)) :=
  ⟨by decide, c1_result_length corpusMixed simsMixed qJavaComm (by decide)⟩

/-- C3, counterexample.  The query `0 min` yields a detected (non-`none`)
duration constraint of `0`, but Python's `if reqs['max_duration']:` is
falsy at `0`, so the filter is skipped and a 60-minute record is returned
even though `60 > 0 + 10`. -/
theorem c3_counterexample :
    (extract_requirements "0 min".toList).max_duration = some 0 ∧
    (recommend corpusOne60 [1] "0 min".toList).map (fun x => x.a.duration_mins)
      = [60] ∧
    ¬ (60 ≤ 0 + 10) :=
  ⟨by decide, by decide, by decide⟩

/-- C3, amended: whenever the detected `max_duration` is not `none` and is
nonzero, every returned record's `duration_mins` is at most
`max_duration + 10`; and when the strict filter already retains at least 5
records, every returned record's `duration_mins` is at most `max_duration`.
(The nonzero proviso is forced by Python truthiness: a detected constraint
of `0` skips the filter entirely, see `c3_counterexample`.) -/
theorem c3_duration_bound (corpus : List Assessment) (sims : List ℚ)
    (query : List Char) (d : Nat)
    (hd : (extract_requirements query).max_duration = some d) (hpos : d ≠ 0) :
    (∀ x ∈ recommend corpus sims query, x.a.duration_mins ≤ d + 10) ∧
    (5 ≤ ((mkScored corpus sims).filter
        (fun x => x.a.duration_mins ≤ d)).length →
      ∀ x ∈ recommend corpus sims query, x.a.duration_mins ≤ d) := by
  constructor
  · intro x hx
    obtain ⟨y, hy, hxy⟩ := mem_recommend_duration_stage hx
    rw [hd] at hy
    rw [hxy]
    exact applyDurationFilter_duration hpos hy
  · intro h5 x hx
    obtain ⟨y, hy, hxy⟩ := mem_recommend_duration_stage hx
    rw [hd, applyDurationFilter_strict hpos h5] at hy
    rw [hxy]
    simpa using (List.mem_filter.mp hy).2

/-- Witness for `c3_duration_bound` at the query `30 min` and the mixed
corpus. -/
theorem c3_duration_bound_witness :
    (extract_requirements "30 min".toList).max_duration = some 30 ∧
    (30 : Nat) ≠ 0 ∧
    ((∀ x ∈ recommend corpusMixed simsMixed "30 min".toList,
        x.a.duration_mins ≤ 30 + 10) ∧
     (5 ≤ ((mkScored corpusMixed simsMixed).filter
         (fun x => x.a.duration_mins ≤ 30)).length →
       ∀ x ∈ recommend corpusMixed simsMixed "30 min".toList,
         x.a.duration_mins ≤ 30)) :=
  ⟨by decide, by decide,
    c3_duration_bound corpusMixed simsMixed "30 min".toList 30 (by decide) (by decide)⟩

theorem mkScored_map_url (corpus : List Assessment) (sims : List ℚ) :
    ((mkScored corpus sims).map scoredUrl).Sublist (corpus.map Assessment.url) := by
  induction corpus generalizing sims with
  | nil => simp [mkScored]
  | cons a rest ih =>
    cases sims with
    | nil => simp [mkScored]
    | cons s srest =>
      simp only [mkScored, List.zip_cons_cons, List.map_cons]
      exact List.Sublist.cons₂ _ (ih srest)

theorem applyDurationFilter_sublist (md : Option Nat) (l : List Scored) :
    (applyDurationFilter md l).Sublist l := by
  cases md with
  | none => exact List.Sublist.refl l
  | some d =>
    simp only [applyDurationFilter]
    split
    · exact List.Sublist.refl l
    · split
      · exact List.filter_sublist l
      · exact List.filter_sublist l

theorem balanceResults_urls_nodup {b cog : Bool} {l : List Scored}
    (h : (l.map scoredUrl).Nodup) :
    ((balanceResults b cog l).map scoredUrl).Nodup := by
  cases b with
  | false => exact h
  | true =>
    simp only [balanceResults, if_pos]
    exact (((sortBySimDesc_perm _).map scoredUrl).nodup_iff).mpr
      (dedupByUrl_nodup _)

/-- C7: when `url` is a unique key of the corpus, no url appears twice in
a returned recommendation list (in the balanced branch by construction of
the dedup step; otherwise because the result is drawn without repetition
from the corpus). -/
theorem c7_unique_urls (corpus : List Assessment) (sims : List ℚ)
    (query : List Char) (hnd : (corpus.map Assessment.url).Nodup) :
    ((recommend corpus sims query).map scoredUrl).Nodup := by
  have h0 : ((mkScored corpus sims).map scoredUrl).Nodup :=
    (mkScored_map_url corpus sims).nodup hnd
  have h1 : ((applyDurationFilter (extract_requirements query).max_duration
      (mkScored corpus sims)).map scoredUrl).Nodup :=
    ((applyDurationFilter_sublist _ _).map scoredUrl).nodup h0
  have h2 : ((applyEntryBoost (extract_requirements query).is_entry_level
      (applyDurationFilter (extract_requirements query).max_duration
        (mkScored corpus sims))).map scoredUrl).Nodup := by
    rw [applyEntryBoost_map_url]; exact h1
  have h3 : ((sortBySimDesc (applyEntryBoost (extract_requirements query).is_entry_level
      (applyDurationFilter (extract_requirements query).max_duration
        (mkScored corpus sims)))).map scoredUrl).Nodup :=
    (((sortBySimDesc_perm _).map scoredUrl).nodup_iff).mpr h2
  have h4 : ((candidateList corpus sims query).map scoredUrl).Nodup := by
    simp only [candidateList]
    exact balanceResults_urls_nodup h3
  exact ((List.take_sublist _ _).map scoredUrl).nodup h4

/-- Witness for `c7_unique_urls` at the mixed corpus and the balanced
query. -/
theorem c7_unique_urls_witness :
    (corpusMixed.map Assessment.url).Nodup ∧
    ((recommend corpusMixed simsMixed qJavaComm).map scoredUrl).Nodup :=
  ⟨by decide, c7_unique_urls corpusMixed simsMixed qJavaComm (by decide)⟩

/-- C9: on a balanced-intent query, every returned record's `test_type` is
`K`, `P` or `A`; a `B` record is never returned, however high its
similarity. -/
theorem c9_balanced_types (corpus : List Assessment) (sims : List ℚ)
    (query : List Char)
    (hb : (extract_requirements query).needs_balanced = true) :
    ∀ x ∈ recommend corpus sims query,
      x.a.test_type = "K" ∨ x.a.test_type = "P" ∨ x.a.test_type = "A" := by
  intro x hx
  have h1 : x ∈ candidateList corpus sims query :=
    mem_clampResults (show x ∈ clampResults (candidateList corpus sims query) from hx)
  have h2 : x ∈ balanceResults true (extract_requirements query).needs_cognitive
      (sortBySimDesc (applyEntryBoost (extract_requirements query).is_entry_level
        (applyDurationFilter (extract_requirements query).max_duration
          (mkScored corpus sims)))) := by
    simpa [candidateList, hb] using h1
  have h3 := mem_sortBySimDesc.mp (show x ∈ sortBySimDesc _ by
    simpa [balanceResults] using h2)
  exact (mem_balancedUnion (dedupByUrl_subset _ x h3)).2

/-- Witness for `c9_balanced_types`: on the mixed corpus the top-scoring
record is the `B` one, yet it is never returned for the balanced query. -/
theorem c9_balanced_types_witness :
    (extract_requirements qJavaComm).needs_balanced = true ∧
    (∀ x ∈ recommend corpusMixed simsMixed qJavaComm,
      x.a.test_type = "K" ∨ x.a.test_type = "P" ∨ x.a.test_type = "A") :=
  ⟨by decide, c9_balanced_types corpusMixed simsMixed qJavaComm (by decide)⟩

theorem countP_not_add (p : Scored → Bool) (l : List Scored) :
    l.countP p + l.countP (fun a => !(p a)) = l.length := by
  induction l with
  | nil => simp
  | cons x rest ih =>
    by_cases h : p x <;> simp [List.countP_cons, h] <;> omega

theorem countP_take_ge (p : Scored → Bool) (l : List Scored) (m : Nat) :
    l.countP p ≤ (l.take m).countP p + (l.length - m) := by
  conv_lhs => rw [← List.take_append_drop m l]
  rw [List.countP_append]
  have h1 : (l.drop m).countP p ≤ (l.drop m).length := List.countP_le_length p
  rw [List.length_drop] at h1
  omega

theorem slice_urls_disjoint {S : List Scored} (hnd : (S.map scoredUrl).Nodup)
    {t1 t2 : String} (hne : t1 ≠ t2) (n1 n2 : Nat) :
    List.Disjoint
      (((S.filter (fun y => y.a.test_type == t1)).take n1).map scoredUrl)
      (((S.filter (fun y => y.a.test_type == t2)).take n2).map scoredUrl) := by
  intro u hu1 hu2
  obtain ⟨x, hx, hxu⟩ := List.mem_map.mp hu1
  obtain ⟨y, hy, hyu⟩ := List.mem_map.mp hu2
  have hx2 := mem_typeSlice hx
  have hy2 := mem_typeSlice hy
  have hxy : x = y :=
    List.inj_on_of_nodup_map hnd hx2.1 hy2.1 (by rw [hxu, hyu])
  exact hne (by rw [← hx2.2, ← hy2.2, hxy])

theorem slice_map_url_nodup {S : List Scored} (hnd : (S.map scoredUrl).Nodup)
    (t : String) (n : Nat) :
    (((S.filter (fun y => y.a.test_type == t)).take n).map scoredUrl).Nodup :=
  (((List.take_sublist n _).trans (List.filter_sublist S)).map scoredUrl).nodup hnd

theorem slice_countP_self (S : List Scored) (t : String) (n : Nat) :
    ((S.filter (fun y => y.a.test_type == t)).take n).countP
        (fun x => x.a.test_type == t)
      = ((S.filter (fun y => y.a.test_type == t)).take n).length :=
  List.countP_eq_length.mpr (fun x hx => by simp [(mem_typeSlice hx).2])

theorem slice_countP_not_self (S : List Scored) (t : String) (n : Nat) :
    ((S.filter (fun y => y.a.test_type == t)).take n).countP
        (fun x => !(x.a.test_type == t)) = 0 :=
  List.countP_eq_zero.mpr (fun x hx => by simp [(mem_typeSlice hx).2])

theorem union_take_diversity (U : List Scored)
    (hndU : (U.map scoredUrl).Nodup)
    (hK1 : 1 ≤ U.countP (fun x => x.a.test_type == "K"))
    (hP1 : 1 ≤ U.countP (fun x => x.a.test_type == "P"))
    (hK8 : U.countP (fun x => !(x.a.test_type == "K")) ≤ 8)
    (hP8 : U.countP (fun x => !(x.a.test_type == "P")) ≤ 8) :
    (∃ x ∈ clampResults (sortBySimDesc (dedupByUrl U)), x.a.test_type = "K") ∧
    (∃ x ∈ clampResults (sortBySimDesc (dedupByUrl U)), x.a.test_type = "P") := by
  rw [dedupByUrl_eq_self hndU]
  have hperm := sortBySimDesc_perm U
  have hlen : (sortBySimDesc U).length = U.length := hperm.length_eq
  constructor
  · have hcK := hperm.countP_eq (fun x => x.a.test_type == "K")
    have heq := countP_not_add (fun x => x.a.test_type == "K") U
    have htk := countP_take_ge (fun x => x.a.test_type == "K") (sortBySimDesc U)
      (max 5 (min 10 (sortBySimDesc U).length))
    have hpos : 0 < (clampResults (sortBySimDesc U)).countP
        (fun x => x.a.test_type == "K") := by
      simp only [clampResults]
      omega
    obtain ⟨x, hx, hxt⟩ := List.countP_pos_iff.mp hpos
    exact ⟨x, hx, by simpa using hxt⟩
  · have hcP := hperm.countP_eq (fun x => x.a.test_type == "P")
    have heq := countP_not_add (fun x => x.a.test_type == "P") U
    have htk := countP_take_ge (fun x => x.a.test_type == "P") (sortBySimDesc U)
      (max 5 (min 10 (sortBySimDesc U).length))
    have hpos : 0 < (clampResults (sortBySimDesc U)).countP
        (fun x => x.a.test_type == "P") := by
      simp only [clampResults]
      omega
    obtain ⟨x, hx, hxt⟩ := List.countP_pos_iff.mp hpos
    exact ⟨x, hx, by simpa using hxt⟩

theorem balancedUnion_facts {S : List Scored} (hndS : (S.map scoredUrl).Nodup)
    (cog : Bool)
    (hK : ∃ x ∈ S, x.a.test_type = "K") (hP : ∃ x ∈ S, x.a.test_type = "P") :
    ((balancedUnion cog S).map scoredUrl).Nodup ∧
    1 ≤ (balancedUnion cog S).countP (fun x => x.a.test_type == "K") ∧
    1 ≤ (balancedUnion cog S).countP (fun x => x.a.test_type == "P") ∧
    (balancedUnion cog S).countP (fun x => !(x.a.test_type == "K")) ≤ 8 ∧
    (balancedUnion cog S).countP (fun x => !(x.a.test_type == "P")) ≤ 8 := by
  obtain ⟨yK, hyKS, hyKt⟩ := hK
  obtain ⟨yP, hyPS, hyPt⟩ := hP
  have hyKf : yK ∈ S.filter (fun y => y.a.test_type == "K") :=
    List.mem_filter.mpr ⟨hyKS, by simp [hyKt]⟩
  have hyPf : yP ∈ S.filter (fun y => y.a.test_type == "P") :=
    List.mem_filter.mpr ⟨hyPS, by simp [hyPt]⟩
  have hkLen : 1 ≤ ((S.filter (fun y => y.a.test_type == "K")).take 5).length := by
    rw [List.length_take]
    have := List.length_pos.mpr (List.ne_nil_of_mem hyKf)
    omega
  have hpLen : 1 ≤ ((S.filter (fun y => y.a.test_type == "P")).take 5).length := by
    rw [List.length_take]
    have := List.length_pos.mpr (List.ne_nil_of_mem hyPf)
    omega
  have hk5 : ((S.filter (fun y => y.a.test_type == "K")).take 5).length ≤ 5 :=
    List.length_take_le _ _
  have hp5 : ((S.filter (fun y => y.a.test_type == "P")).take 5).length ≤ 5 :=
    List.length_take_le _ _
  have ha3 : ((S.filter (fun y => y.a.test_type == "A")).take 3).length ≤ 3 :=
    List.length_take_le _ _
  cases cog with
  | false =>
    have hU : balancedUnion false S =
        (S.filter (fun y => y.a.test_type == "K")).take 5 ++
          (S.filter (fun y => y.a.test_type == "P")).take 5 := by
      simp [balancedUnion]
    rw [hU]
    refine ⟨?_, ?_, ?_, ?_, ?_⟩
    · rw [List.map_append]
      exact List.nodup_append.mpr ⟨slice_map_url_nodup hndS _ _,
        slice_map_url_nodup hndS _ _, slice_urls_disjoint hndS (by decide) 5 5⟩
    · rw [List.countP_append, slice_countP_self]
      omega
    · rw [List.countP_append, slice_countP_self S "P" 5]
      omega
    · rw [List.countP_append, slice_countP_not_self S "K" 5]
      have := List.countP_le_length (l :=
        (S.filter (fun y => y.a.test_type == "P")).take 5)
        (fun x => !(x.a.test_type == "K"))
      omega
    · rw [List.countP_append, slice_countP_not_self S "P" 5]
      have := List.countP_le_length (l :=
        (S.filter (fun y => y.a.test_type == "K")).take 5)
        (fun x => !(x.a.test_type == "P"))
      omega
  | true =>
    have hU : balancedUnion true S =
        (S.filter (fun y => y.a.test_type == "K")).take 5 ++
          (S.filter (fun y => y.a.test_type == "P")).take 5 ++
            (S.filter (fun y => y.a.test_type == "A")).take 3 := by
      simp [balancedUnion]
    rw [hU]
    refine ⟨?_, ?_, ?_, ?_, ?_⟩
    · rw [List.map_append, List.map_append]
      refine List.nodup_append.mpr ⟨List.nodup_append.mpr
        ⟨slice_map_url_nodup hndS _ _, slice_map_url_nodup hndS _ _,
          slice_urls_disjoint hndS (by decide) 5 5⟩,
        slice_map_url_nodup hndS _ _, ?_⟩
      rw [List.disjoint_append_left]
      exact ⟨slice_urls_disjoint hndS (by decide) 5 3,
        slice_urls_disjoint hndS (by decide) 5 3⟩
    · rw [List.countP_append, List.countP_append, slice_countP_self]
      omega
    · rw [List.countP_append, List.countP_append, slice_countP_self S "P" 5]
      omega
    · rw [List.countP_append, List.countP_append, slice_countP_not_self S "K" 5]
      have := List.countP_le_length (l :=
        (S.filter (fun y => y.a.test_type == "P")).take 5)
        (fun x => !(x.a.test_type == "K"))
      have := List.countP_le_length (l :=
        (S.filter (fun y => y.a.test_type == "A")).take 3)
        (fun x => !(x.a.test_type == "K"))
      omega
    · rw [List.countP_append, List.countP_append, slice_countP_not_self S "P" 5]
      have := List.countP_le_length (l :=
        (S.filter (fun y => y.a.test_type == "K")).take 5)
        (fun x => !(x.a.test_type == "P"))
      have := List.countP_le_length (l :=
        (S.filter (fun y => y.a.test_type == "A")).take 3)
        (fun x => !(x.a.test_type == "P"))
      omega

/-- C5: on a balanced-intent query, whenever the duration-constraint-
satisfying candidate set has at least one `K`-typed and at least one
`P`-typed record (urls being a unique corpus key), the returned list
contains records of at least two different `test_type` categories. -/
theorem c5_balanced_diversity (corpus : List Assessment) (sims : List ℚ)
    (query : List Char)
    (hb : (extract_requirements query).needs_balanced = true)
    (hnd : (corpus.map Assessment.url).Nodup)
    (hK : ∃ x ∈ applyDurationFilter (extract_requirements query).max_duration
      (mkScored corpus sims), x.a.test_type = "K")
    (hP : ∃ x ∈ applyDurationFilter (extract_requirements query).max_duration
      (mkScored corpus sims), x.a.test_type = "P") :
    ∃ x ∈ recommend corpus sims query, ∃ y ∈ recommend corpus sims query,
      x.a.test_type ≠ y.a.test_type := by
  have hndS : ((sortBySimDesc (applyEntryBoost
      (extract_requirements query).is_entry_level
      (applyDurationFilter (extract_requirements query).max_duration
        (mkScored corpus sims)))).map scoredUrl).Nodup := by
    refine (((sortBySimDesc_perm _).map scoredUrl).nodup_iff).mpr ?_
    rw [applyEntryBoost_map_url]
    exact ((applyDurationFilter_sublist _ _).map scoredUrl).nodup
      ((mkScored_map_url corpus sims).nodup hnd)
  have hKS : ∃ x ∈ sortBySimDesc (applyEntryBoost
      (extract_requirements query).is_entry_level
      (applyDurationFilter (extract_requirements query).max_duration
        (mkScored corpus sims))), x.a.test_type = "K" := by
    obtain ⟨z, hz, hzt⟩ := hK
    obtain ⟨y, hy, hya⟩ :=
      applyEntryBoost_mem_of_mem (b := (extract_requirements query).is_entry_level) hz
    exact ⟨y, mem_sortBySimDesc.mpr hy, by rw [hya, hzt]⟩
  have hPS : ∃ x ∈ sortBySimDesc (applyEntryBoost
      (extract_requirements query).is_entry_level
      (applyDurationFilter (extract_requirements query).max_duration
        (mkScored corpus sims))), x.a.test_type = "P" := by
    obtain ⟨z, hz, hzt⟩ := hP
    obtain ⟨y, hy, hya⟩ :=
      applyEntryBoost_mem_of_mem (b := (extract_requirements query).is_entry_level) hz
    exact ⟨y, mem_sortBySimDesc.mpr hy, by rw [hya, hzt]⟩
  obtain ⟨hndU, h1, h2, h3, h4⟩ :=
    balancedUnion_facts hndS (extract_requirements query).needs_cognitive hKS hPS
  have key := union_take_diversity _ hndU h1 h2 h3 h4
  have hrec : recommend corpus sims query =
      clampResults (sortBySimDesc (dedupByUrl (balancedUnion
        (extract_requirements query).needs_cognitive
        (sortBySimDesc (applyEntryBoost
          (extract_requirements query).is_entry_level
          (applyDurationFilter (extract_requirements query).max_duration
            (mkScored corpus sims))))))) := by
    simp [recommend, candidateList, balanceResults, hb]
  rw [hrec]
  obtain ⟨⟨x, hx, hxt⟩, ⟨y, hy, hyt⟩⟩ := key
  exact ⟨x, hx, y, hy, by rw [hxt, hyt]; decide⟩

/-- Witness for `c5_balanced_diversity` at the mixed corpus and the
balanced query. -/
theorem c5_balanced_diversity_witness :
    (extract_requirements qJavaComm).needs_balanced = true ∧
    (corpusMixed.map Assessment.url).Nodup ∧
    (∃ x ∈ applyDurationFilter (extract_requirements qJavaComm).max_duration
      (mkScored corpusMixed simsMixed), x.a.test_type = "K") ∧
    (∃ x ∈ applyDurationFilter (extract_requirements qJavaComm).max_duration
      (mkScored corpusMixed simsMixed), x.a.test_type = "P") ∧
    (∃ x ∈ recommend corpusMixed simsMixed qJavaComm,
      ∃ y ∈ recommend corpusMixed simsMixed qJavaComm,
        x.a.test_type ≠ y.a.test_type) :=
  ⟨by decide, by decide, by decide, by decide,
    c5_balanced_diversity corpusMixed simsMixed qJavaComm
      (by decide) (by decide) (by decide) (by decide)⟩

/-- C2, code evaluation at the failing input.  For the empty and the
whitespace-only query the recommendation engine is never invoked (second
component `false`), but the response is an HTTP 500 server error, not the
4xx client error the specification states: the explicit
`HTTPException(status_code=400, ...)` is intercepted by the handler's
blanket `except Exception` clause and re-raised with status 500. -/
theorem c2_empty_query_behavior :
    get_recommendations corpusMixed simsMixed "" =
      (.errorResp 500 "Error: 400: Query cannot be empty", false) ∧
    get_recommendations corpusMixed simsMixed "   " =
      (.errorResp 500 "Error: 400: Query cannot be empty", false) ∧
    ¬ (400 ≤ 500 ∧ 500 ≤ 499) :=
  ⟨by decide, by decide, by decide⟩

/-- C4, counterexample.  A successful `/recommend` response is
`(query, count, recommendations)` — there is no `recommended_assessments`
key, the records carry no `adaptive_support`, `remote_support` or
`duration` keys, and `test_type` is the raw single-letter code (here `B`),
which is none of the five category labels. -/
theorem c4_counterexample :
    "recommended_assessments" ∉ recommendationResponseKeys ∧
    "adaptive_support" ∉ assessmentResponseKeys ∧
    "remote_support" ∉ assessmentResponseKeys ∧
    "duration" ∉ assessmentResponseKeys ∧
    (get_recommendations corpusMixed simsMixed "java").2 = true ∧
    outcomeShape (get_recommendations corpusMixed simsMixed "java") =
      some ("java", 3, [("B", "b1"), ("K", "k1"), ("P", "p1")]) ∧
    "B" ∉ specCategoryLabels :=
  ⟨by decide, by decide, by decide, by decide, by decide, by decide, by decide⟩

/-- C4, amended: on every request whose query is not whitespace-only, the
handler succeeds with a body holding the echoed query, a `count` equal to
the number of recommendation records, and records whose `name`, `url`,
raw single-letter `test_type`, `duration_mins`, `skills` and `description`
are copied verbatim from a corpus row (serialized under the pydantic field
names `query`/`count`/`recommendations` and `name`/`url`/`test_type`/
`duration_mins`/`skills`/`description`/`relevance_score`). -/
theorem c4_response_shape (corpus : List Assessment) (sims : List ℚ)
    (query : String) (hq : ¬ (query.toList.all pyIsSpace = true)) :
    ∃ body, get_recommendations corpus sims query = (.success body, true) ∧
      body.query = query ∧
      body.count = body.recommendations.length ∧
      ∀ r ∈ body.recommendations, ∃ a ∈ corpus,
        r.name = a.name ∧ r.url = a.url ∧ r.test_type = a.test_type ∧
        r.duration_mins = a.duration_mins ∧ r.skills = a.skills ∧
        r.description = a.description := by
  refine ⟨{ query := query,
            count := ((recommend corpus sims query.toList).map
              toAssessmentResponse).length,
            recommendations := (recommend corpus sims query.toList).map
              toAssessmentResponse }, ?_, rfl, rfl, ?_⟩
  · simp only [get_recommendations]
    rw [if_neg hq]
  · intro r hr
    obtain ⟨x, hx, hxr⟩ := List.mem_map.mp hr
    refine ⟨x.a, mem_recommend_corpus hx, ?_⟩
    subst hxr
    exact ⟨rfl, rfl, rfl, rfl, rfl, rfl⟩

/-- Witness for `c4_response_shape` at the query `java`. -/
theorem c4_response_shape_witness :
    ¬ ("java".toList.all pyIsSpace = true) ∧
    (∃ body, get_recommendations corpusMixed simsMixed "java" =
        (.success body, true) ∧
      body.query = "java" ∧
      body.count = body.recommendations.length ∧
      ∀ r ∈ body.recommendations, ∃ a ∈ corpusMixed,
        r.name = a.name ∧ r.url = a.url ∧ r.test_type = a.test_type ∧
        r.duration_mins = a.duration_mins ∧ r.skills = a.skills ∧
        r.description = a.description) :=
  ⟨by decide, c4_response_shape corpusMixed simsMixed "java" (by decide)⟩

theorem orElse_isSome {o : Option Nat} {f : Unit → Option Nat} :
    ((o.orElse f).isSome = true) ↔ (o.isSome = true ∨ (f ()).isSome = true) := by
  cases o <;> simp [Option.orElse]

theorem starRun_sound {p : Char → Bool} {cs : List Char} {cap : Option Nat}
    {k : List Char → Option Nat → Option Nat}
    (h : (starRun p cs cap k).isSome = true) :
    ∃ rest, Matches (.starCls p) cs rest ∧ (k rest cap).isSome = true := by
  induction cs with
  | nil => exact ⟨[], .starNil, by simpa [starRun] using h⟩
  | cons c tl ih =>
    simp only [starRun] at h
    by_cases hp : p c = true
    · rw [if_pos hp] at h
      rcases orElse_isSome.mp h with h1 | h1
      · obtain ⟨rest, hm, hk⟩ := ih h1
        exact ⟨rest, .starCons hp hm, hk⟩
      · exact ⟨c :: tl, .starNil, h1⟩
    · rw [if_neg hp] at h
      exact ⟨c :: tl, .starNil, h⟩

theorem starRun_complete {p : Char → Bool} :
    ∀ (cs rest : List Char), Matches (.starCls p) cs rest →
      ∀ (cap : Option Nat) (k : List Char → Option Nat → Option Nat),
        (k rest cap).isSome = true → (starRun p cs cap k).isSome = true := by
  intro cs
  induction cs with
  | nil =>
    intro rest hm cap k hk
    cases hm
    simpa [starRun] using hk
  | cons c tl ih =>
    intro rest hm cap k hk
    cases hm with
    | starNil =>
      simp only [starRun]
      by_cases hp : p c = true
      · rw [if_pos hp]
        exact orElse_isSome.mpr (Or.inr hk)
      · rw [if_neg hp]
        exact hk
    | starCons hp hm2 =>
      simp only [starRun, if_pos hp]
      exact orElse_isSome.mpr (Or.inl (ih _ hm2 cap k hk))

theorem grpRun_sound {cs : List Char} {v : Nat}
    {k : List Char → Option Nat → Option Nat}
    (h : (grpRun cs v k).isSome = true) :
    ∃ rest, Matches (.starCls pyIsDigit) cs rest ∧
      ∃ w, (k rest (some w)).isSome = true := by
  induction cs generalizing v with
  | nil => exact ⟨[], .starNil, v, by simpa [grpRun] using h⟩
  | cons c tl ih =>
    simp only [grpRun] at h
    by_cases hd : pyIsDigit c = true
    · rw [if_pos hd] at h
      rcases orElse_isSome.mp h with h1 | h1
      · obtain ⟨rest, hm, w, hk⟩ := ih h1
        exact ⟨rest, .starCons hd hm, w, hk⟩
      · exact ⟨c :: tl, .starNil, v, h1⟩
    · rw [if_neg hd] at h
      exact ⟨c :: tl, .starNil, v, h⟩

theorem grpRun_complete :
    ∀ (cs rest : List Char), Matches (.starCls pyIsDigit) cs rest →
      ∀ (v : Nat) (k : List Char → Option Nat → Option Nat),
        (∀ w, (k rest (some w)).isSome = true) →
          (grpRun cs v k).isSome = true := by
  intro cs
  induction cs with
  | nil =>
    intro rest hm v k hk
    cases hm
    simpa [grpRun] using hk v
  | cons c tl ih =>
    intro rest hm v k hk
    cases hm with
    | starNil =>
      simp only [grpRun]
      by_cases hd : pyIsDigit c = true
      · rw [if_pos hd]
        exact orElse_isSome.mpr (Or.inr (hk v))
      · rw [if_neg hd]
        exact hk v
    | starCons hd hm2 =>
      simp only [grpRun, if_pos hd]
      exact orElse_isSome.mpr (Or.inl (ih _ hm2 _ k hk))

theorem mre_sound : ∀ (r : RE) (cs : List Char) (cap : Option Nat)
    (k : List Char → Option Nat → Option Nat),
    (mre r cs cap k).isSome = true →
      ∃ rest, Matches r cs rest ∧ ∃ cap2, (k rest cap2).isSome = true := by
  intro r
  induction r with
  | cls p =>
    intro cs cap k h
    cases cs with
    | nil => simp [mre] at h
    | cons c tl =>
      simp only [mre] at h
      by_cases hp : p c = true
      · rw [if_pos hp] at h
        exact ⟨tl, .cls hp, cap, h⟩
      · rw [if_neg hp] at h
        simp at h
  | lit s =>
    intro cs cap k h
    simp only [mre] at h
    by_cases hp : s.isPrefixOf cs = true
    · rw [if_pos hp] at h
      obtain ⟨t, ht⟩ := List.isPrefixOf_iff_prefix.mp hp
      subst ht
      rw [List.drop_left] at h
      exact ⟨t, .lit, cap, h⟩
    · rw [if_neg hp] at h
      simp at h
  | alt a b iha ihb =>
    intro cs cap k h
    simp only [mre] at h
    rcases orElse_isSome.mp h with h1 | h1
    · obtain ⟨rest, hm, cap2, hk⟩ := iha cs cap k h1
      exact ⟨rest, .altL hm, cap2, hk⟩
    · obtain ⟨rest, hm, cap2, hk⟩ := ihb cs cap k h1
      exact ⟨rest, .altR hm, cap2, hk⟩
  | seq a b iha ihb =>
    intro cs cap k h
    simp only [mre] at h
    obtain ⟨mid, hm1, cap1, hk1⟩ := iha cs cap _ h
    obtain ⟨rest, hm2, cap2, hk2⟩ := ihb mid cap1 k hk1
    exact ⟨rest, .seq hm1 hm2, cap2, hk2⟩
  | starCls p =>
    intro cs cap k h
    obtain ⟨rest, hm, hk⟩ := starRun_sound (by simpa [mre] using h)
    exact ⟨rest, hm, cap, hk⟩
  | plusCls p =>
    intro cs cap k h
    cases cs with
    | nil => simp [mre] at h
    | cons c tl =>
      simp only [mre] at h
      by_cases hp : p c = true
      · rw [if_pos hp] at h
        obtain ⟨rest, hm, hk⟩ := starRun_sound h
        exact ⟨rest, .plus hp hm, cap, hk⟩
      · rw [if_neg hp] at h
        simp at h
  | opt a iha =>
    intro cs cap k h
    simp only [mre] at h
    rcases orElse_isSome.mp h with h1 | h1
    · obtain ⟨rest, hm, cap2, hk⟩ := iha cs cap k h1
      exact ⟨rest, .optSome hm, cap2, hk⟩
    · exact ⟨cs, .optNone, cap, h1⟩
  | grpDigits =>
    intro cs cap k h
    cases cs with
    | nil => simp [mre] at h
    | cons c tl =>
      simp only [mre] at h
      by_cases hd : pyIsDigit c = true
      · rw [if_pos hd] at h
        obtain ⟨rest, hm, w, hk⟩ := grpRun_sound h
        exact ⟨rest, .grp hd hm, some w, hk⟩
      · rw [if_neg hd] at h
        simp at h

theorem mre_complete : ∀ (r : RE) (cs rest : List Char), Matches r cs rest →
    ∀ (cap : Option Nat) (k : List Char → Option Nat → Option Nat),
      (∀ cap2, (k rest cap2).isSome = true) →
        (mre r cs cap k).isSome = true := by
  intro r
  induction r with
  | cls p =>
    intro cs rest hm cap k hk
    cases hm with
    | cls hp =>
      simp only [mre]
      rw [if_pos hp]
      exact hk cap
  | lit s =>
    intro cs rest hm cap k hk
    cases hm with
    | lit =>
      simp only [mre]
      have hp : s.isPrefixOf (s ++ rest) = true :=
        List.isPrefixOf_iff_prefix.mpr ⟨rest, rfl⟩
      rw [if_pos hp, List.drop_left]
      exact hk cap
  | alt a b iha ihb =>
    intro cs rest hm cap k hk
    cases hm with
    | altL h1 =>
      simp only [mre]
      exact orElse_isSome.mpr (Or.inl (iha _ _ h1 cap k hk))
    | altR h1 =>
      simp only [mre]
      exact orElse_isSome.mpr (Or.inr (ihb _ _ h1 cap k hk))
  | seq a b iha ihb =>
    intro cs rest hm cap k hk
    cases hm with
    | seq h1 h2 =>
      simp only [mre]
      exact iha _ _ h1 cap _ (fun cap2 => ihb _ _ h2 cap2 k hk)
  | starCls p =>
    intro cs rest hm cap k hk
    simp only [mre]
    exact starRun_complete _ _ hm cap k (hk cap)
  | plusCls p =>
    intro cs rest hm cap k hk
    cases hm with
    | plus hp hm2 =>
      simp only [mre]
      rw [if_pos hp]
      exact starRun_complete _ _ hm2 cap k (hk cap)
  | opt a iha =>
    intro cs rest hm cap k hk
    cases hm with
    | optSome h1 =>
      simp only [mre]
      exact orElse_isSome.mpr (Or.inl (iha _ _ h1 cap k hk))
    | optNone =>
      simp only [mre]
      exact orElse_isSome.mpr (Or.inr (hk cap))
  | grpDigits =>
    intro cs rest hm cap k hk
    cases hm with
    | grp hd hm2 =>
      simp only [mre]
      rw [if_pos hd]
      exact grpRun_complete _ _ hm2 _ k (fun w => hk (some w))

theorem reSearch_isSome_iff {r : RE} : ∀ (cs : List Char),
    (reSearch r cs).isSome = true ↔
      ∃ t rest, t.IsSuffix cs ∧ Matches r t rest := by
  intro cs
  induction cs with
  | nil =>
    constructor
    · intro h
      obtain ⟨rest, hm, -⟩ := mre_sound r [] none reAccept (by simpa [reSearch] using h)
      exact ⟨[], rest, List.suffix_rfl, hm⟩
    · rintro ⟨t, rest, hsuf, hm⟩
      obtain ⟨pre, hpre⟩ := hsuf
      have ht : t = [] := by
        cases List.append_eq_nil.mp hpre with
        | intro h1 h2 => exact h2
      subst ht
      simpa [reSearch] using
        mre_complete r [] rest hm none reAccept (fun cap2 => rfl)
  | cons c tl ih =>
    constructor
    · intro h
      rcases orElse_isSome.mp (by simpa only [reSearch] using h) with h1 | h1
      · obtain ⟨rest, hm, -⟩ := mre_sound r (c :: tl) none reAccept h1
        exact ⟨c :: tl, rest, List.suffix_rfl, hm⟩
      · obtain ⟨t, rest, hsuf, hm⟩ := ih.mp h1
        exact ⟨t, rest, hsuf.trans (List.suffix_cons c tl), hm⟩
    · rintro ⟨t, rest, hsuf, hm⟩
      show (reSearch r (c :: tl)).isSome = true
      simp only [reSearch]
      apply orElse_isSome.mpr
      obtain ⟨pre, hpre⟩ := hsuf
      cases pre with
      | nil =>
        simp only [List.nil_append] at hpre
        subst hpre
        exact Or.inl (mre_complete r _ _ hm none reAccept (fun cap2 => rfl))
      | cons d dtl =>
        have ht : t.IsSuffix tl := by
          refine ⟨dtl, ?_⟩
          have := congrArg List.tail hpre
          simpa using this
        exact Or.inr (ih.mpr ⟨t, rest, ht, hm⟩)

theorem matches_suffix : ∀ {r : RE} {cs rest : List Char},
    Matches r cs rest → rest.IsSuffix cs := by
  intro r cs rest hm
  induction hm with
  | cls hp => exact List.suffix_cons _ _
  | lit => exact ⟨_, rfl⟩
  | altL _ ih => exact ih
  | altR _ ih => exact ih
  | seq _ _ ih1 ih2 => exact ih2.trans ih1
  | starNil => exact List.suffix_rfl
  | starCons _ _ ih => exact ih.trans (List.suffix_cons _ _)
  | plus _ _ ih => exact ih.trans (List.suffix_cons _ _)
  | optSome _ ih => exact ih
  | optNone => exact List.suffix_rfl
  | grp _ _ ih => exact ih.trans (List.suffix_cons _ _)

theorem matches_coreMin_pat1 {cs rest : List Char}
    (h : Matches coreMin cs rest) : Matches pat1 cs rest := by
  unfold coreMin at h
  cases h with
  | seq h1 h2 =>
    cases h2 with
    | seq h2a h2b =>
      exact .seq h1 (.seq h2a (.seq .optNone (.seq .starNil
        (.seq .optNone (.seq .starNil h2b)))))

theorem matches_coreHour_pat2 {cs rest : List Char}
    (h : Matches coreHour cs rest) : Matches pat2 cs rest := by
  unfold coreHour at h
  cases h with
  | seq h1 h2 =>
    cases h2 with
    | seq h2a h2b =>
      exact .seq h1 (.seq h2a (.seq .optNone (.seq .starNil
        (.seq .optNone (.seq .starNil h2b)))))

theorem matches_prefixMin_pat1 {w : List Char} {cs rest : List Char}
    (h : Matches (.seq (.lit w) (.seq wsPlus coreMin)) cs rest) :
    ∃ t e, t.IsSuffix cs ∧ Matches pat1 t e := by
  cases h with
  | seq h1 h2 =>
    cases h2 with
    | seq h2a h2b =>
      have hsuf1 : _ := matches_suffix h1
      have hsuf2 : _ := matches_suffix h2a
      exact ⟨_, rest, hsuf2.trans hsuf1, matches_coreMin_pat1 h2b⟩

theorem matches_prefixHour_pat2 {w : List Char} {cs rest : List Char}
    (h : Matches (.seq (.lit w) (.seq wsPlus coreHour)) cs rest) :
    ∃ t e, t.IsSuffix cs ∧ Matches pat2 t e := by
  cases h with
  | seq h1 h2 =>
    cases h2 with
    | seq h2a h2b =>
      have hsuf1 : _ := matches_suffix h1
      have hsuf2 : _ := matches_suffix h2a
      exact ⟨_, rest, hsuf2.trans hsuf1, matches_coreHour_pat2 h2b⟩

theorem matches_pat9_pat1 {cs rest : List Char}
    (h : Matches pat9 cs rest) : Matches pat1 cs rest := by
  unfold pat9 at h
  cases h with
  | seq h1 h2 =>
    cases h2 with
    | seq h2a h2b =>
      exact .seq h1 (.seq h2a (.seq .optNone (.seq .starNil (.seq .optNone
        (.seq .starNil (.seq (.altL h2b) .optNone))))))

theorem matches_pat10_pat2 {cs rest : List Char}
    (h : Matches pat10 cs rest) : Matches pat2 cs rest := by
  unfold pat10 at h
  cases h with
  | seq h1 h2 =>
    cases h2 with
    | seq h2a h2b =>
      exact .seq h1 (.seq h2a (.seq .optNone (.seq .starNil (.seq .optNone
        (.seq .starNil (.seq (.altL h2b) .optNone))))))

theorem reSearch_none_of_prefixMin {w : List Char} {cs : List Char}
    (h1 : reSearch pat1 cs = none) :
    reSearch (.seq (.lit w) (.seq wsPlus coreMin)) cs = none := by
  by_contra hne
  obtain ⟨t, e, hsuf, hm⟩ :=
    (reSearch_isSome_iff cs).mp (Option.ne_none_iff_isSome.mp hne)
  obtain ⟨t2, e2, hsuf2, hm2⟩ := matches_prefixMin_pat1 hm
  have : (reSearch pat1 cs).isSome = true :=
    (reSearch_isSome_iff cs).mpr ⟨t2, e2, hsuf2.trans hsuf, hm2⟩
  rw [h1] at this
  simp at this

theorem reSearch_none_of_prefixHour {w : List Char} {cs : List Char}
    (h2 : reSearch pat2 cs = none) :
    reSearch (.seq (.lit w) (.seq wsPlus coreHour)) cs = none := by
  by_contra hne
  obtain ⟨t, e, hsuf, hm⟩ :=
    (reSearch_isSome_iff cs).mp (Option.ne_none_iff_isSome.mp hne)
  obtain ⟨t2, e2, hsuf2, hm2⟩ := matches_prefixHour_pat2 hm
  have : (reSearch pat2 cs).isSome = true :=
    (reSearch_isSome_iff cs).mpr ⟨t2, e2, hsuf2.trans hsuf, hm2⟩
  rw [h2] at this
  simp at this

theorem reSearch_pat9_none {cs : List Char} (h1 : reSearch pat1 cs = none) :
    reSearch pat9 cs = none := by
  by_contra hne
  obtain ⟨t, e, hsuf, hm⟩ :=
    (reSearch_isSome_iff cs).mp (Option.ne_none_iff_isSome.mp hne)
  have : (reSearch pat1 cs).isSome = true :=
    (reSearch_isSome_iff cs).mpr ⟨t, e, hsuf, matches_pat9_pat1 hm⟩
  rw [h1] at this
  simp at this

theorem reSearch_pat10_none {cs : List Char} (h2 : reSearch pat2 cs = none) :
    reSearch pat10 cs = none := by
  by_contra hne
  obtain ⟨t, e, hsuf, hm⟩ :=
    (reSearch_isSome_iff cs).mp (Option.ne_none_iff_isSome.mp hne)
  have : (reSearch pat2 cs).isSome = true :=
    (reSearch_isSome_iff cs).mpr ⟨t, e, hsuf, matches_pat10_pat2 hm⟩
  rw [h2] at this
  simp at this

theorem firstPatternMatch_append (pre : List (RE × Nat)) (p : RE) (m : Nat)
    (post : List (RE × Nat)) (cs : List Char)
    (hpre : ∀ q ∈ pre, reSearch q.1 cs = none) (n : Nat)
    (hn : reSearch p cs = some n) :
    firstPatternMatch (pre ++ (p, m) :: post) cs = some (n * m) := by
  induction pre with
  | nil => simp [firstPatternMatch, hn]
  | cons q tl ih =>
    obtain ⟨qp, qm⟩ := q
    have hq : reSearch qp cs = none := hpre (qp, qm) (List.mem_cons_self _ _)
    simp only [List.cons_append, firstPatternMatch, hq]
    exact ih (fun r hr => hpre r (List.mem_cons_of_mem _ hr))

theorem firstPatternMatch_none (ps : List (RE × Nat)) (cs : List Char)
    (h : ∀ q ∈ ps, reSearch q.1 cs = none) :
    firstPatternMatch ps cs = none := by
  induction ps with
  | nil => rfl
  | cons q tl ih =>
    obtain ⟨qp, qm⟩ := q
    have hq : reSearch qp cs = none := h (qp, qm) (List.mem_cons_self _ _)
    simp only [firstPatternMatch, hq]
    exact ih (fun r hr => h r (List.mem_cons_of_mem _ hr))

/-- C8: the duration extractor evaluates its ordered `(pattern,
multiplier)` table in fixed priority order — whenever every entry before a
given table position fails on the lower-cased query and that position's
pattern matches with captured number `n`, the extracted `max_duration` is
`n * multiplier` irrespective of all later entries; and when every entry
fails, it is `none`. -/
theorem c8_first_match_wins (query : List Char) :
    (∀ pre p m post, duration_patterns = pre ++ (p, m) :: post →
      (∀ q ∈ pre, reSearch q.1 (query.map pyLower) = none) →
      ∀ n, reSearch p (query.map pyLower) = some n →
        (extract_requirements query).max_duration = some (n * m)) ∧
    ((∀ q ∈ duration_patterns, reSearch q.1 (query.map pyLower) = none) →
      (extract_requirements query).max_duration = none) := by
  have hmd : (extract_requirements query).max_duration =
      firstPatternMatch duration_patterns (query.map pyLower) := rfl
  constructor
  · intro pre p m post hdec hpre n hn
    rw [hmd, hdec]
    exact firstPatternMatch_append pre p m post _ hpre n hn
  · intro hall
    rw [hmd]
    exact firstPatternMatch_none duration_patterns _ hall

/-- Witness for `c8_first_match_wins` at the query `2 hours`: the minute
pattern (table head) fails, the hour pattern matches with `group(1) = 2`,
and the extractor returns `2 * 60` minutes. -/
theorem c8_first_match_wins_witness :
    duration_patterns = [(pat1, 1)] ++ (pat2, 60) ::
      [(pat3, 1), (pat4, 60), (pat5, 1), (pat6, 60), (pat7, 1), (pat8, 60),
       (pat9, 1), (pat10, 60)] ∧
    (∀ q ∈ [(pat1, (1 : Nat))],
      reSearch q.1 ("2 hours".toList.map pyLower) = none) ∧
    reSearch pat2 ("2 hours".toList.map pyLower) = some 2 ∧
    (extract_requirements "2 hours".toList).max_duration = some (2 * 60) :=
  ⟨rfl,
   fun q hq => by
     rw [List.mem_singleton] at hq
     subst hq
     decide,
   by decide,
   (c8_first_match_wins "2 hours".toList).1 [(pat1, 1)] pat2 60
     [(pat3, 1), (pat4, 60), (pat5, 1), (pat6, 60), (pat7, 1), (pat8, 60),
      (pat9, 1), (pat10, 60)] rfl
     (fun q hq => by
       rw [List.mem_singleton] at hq
       subst hq
       decide)
     2 (by decide)⟩

/-- C10: the eight patterns after the first two never determine the
extractor's result — any text matched by one of them is already matched by
the first minute pattern or the first hour pattern, so the extractor
restricted to the first two table entries is extensionally equal to the
full ten-pattern extractor. -/
theorem c10_first_two_suffice (query : List Char) :
    (extract_requirements query).max_duration = extractDurationFirstTwo query := by
  have hmd : (extract_requirements query).max_duration =
      firstPatternMatch duration_patterns (query.map pyLower) := rfl
  rw [hmd, extractDurationFirstTwo]
  cases h1 : reSearch pat1 (query.map pyLower) with
  | some n => simp [duration_patterns, firstPatternMatch, h1]
  | none =>
    cases h2 : reSearch pat2 (query.map pyLower) with
    | some n => simp [duration_patterns, firstPatternMatch, h1, h2]
    | none =>
      have h3 : reSearch pat3 (query.map pyLower) = none :=
        reSearch_none_of_prefixMin h1
      have h4 : reSearch pat4 (query.map pyLower) = none :=
        reSearch_none_of_prefixHour h2
      have h5 : reSearch pat5 (query.map pyLower) = none :=
        reSearch_none_of_prefixMin h1
      have h6 : reSearch pat6 (query.map pyLower) = none :=
        reSearch_none_of_prefixHour h2
      have h7 : reSearch pat7 (query.map pyLower) = none :=
        reSearch_none_of_prefixMin h1
      have h8 : reSearch pat8 (query.map pyLower) = none :=
        reSearch_none_of_prefixHour h2
      have h9 : reSearch pat9 (query.map pyLower) = none :=
        reSearch_pat9_none h1
      have h10 : reSearch pat10 (query.map pyLower) = none :=
        reSearch_pat10_none h2
      simp [duration_patterns, firstPatternMatch, h1, h2, h3, h4, h5, h6,
        h7, h8, h9, h10]
